import Mathlib

/-!
Verification of the ABI encode-guesser (src/src/encode-guesser/guess.ts).

The TypeScript source is shallowly embedded below.  Byte buffers are
modelled as `List Nat` (one entry per byte), JavaScript numbers and
bigints as `Nat` (all quantities appearing in the program are
non-negative), and `null`/`undefined` results as `Option`.

The external ABI codec (`defaultAbiCoder` from ethers, declared out of
scope by the specification) is abstracted as an explicit `probe`
parameter (the codec probe: decode plus stringification, collapsed to a
Bool) and a `decodeVals` parameter (the concrete decoded values consumed
by the final value-driven refinement).  Likewise `toUtf8String` is
abstracted as a `utf8Ok : List Nat → Bool` parameter.  All theorems are
stated for arbitrary such parameters unless a particular behaviour of
the real codec is needed, in which case it appears as an explicit
hypothesis.
-/

set_option autoImplicit false

namespace AbiGuesser

/-- An ethers `ParamType`, restricted to the shapes the guesser builds or
inspects.  `ParamType.from` applied to a canonical format string is
modelled by the corresponding constructor (parsing is the inverse of
`format`).  `bytesN 32` is the type the source writes as `bytes32`. -/
inductive ParamTy where
  | address : ParamTy
  | uint256 : ParamTy
  | bytes : ParamTy
  | string : ParamTy
  | bytesN (n : Nat) : ParamTy
  | array (child : ParamTy) : ParamTy
  | tuple (components : List ParamTy) : ParamTy

mutual

/-- `ParamType.format()`: the canonical textual format of a type. -/
def ParamTy.format : ParamTy → String
  | ParamTy.address => "address"
  | ParamTy.uint256 => "uint256"
  | ParamTy.bytes => "bytes"
  | ParamTy.string => "string"
  | ParamTy.bytesN n => "bytes" ++ toString n
  | ParamTy.array child => ParamTy.format child ++ "[]"
  | ParamTy.tuple components => "(" ++ String.intercalate "," (ParamTy.formatList components) ++ ")"

/-- Formats of a list of types (components of a tuple). -/
def ParamTy.formatList : List ParamTy → List String
  | [] => []
  | t :: ts => ParamTy.format t :: ParamTy.formatList ts

end

/-- `ParamType.baseType`: "array" for arrays, "tuple" for tuples, and the
elementary type name otherwise. -/
def ParamTy.baseType : ParamTy → String
  | ParamTy.array _ => "array"
  | ParamTy.tuple _ => "tuple"
  | t => ParamTy.format t

/-- `ParamType.components` (null on non-tuples in ethers; the guesser only
reads it on tuples, modelled with `[]` elsewhere). -/
def ParamTy.components : ParamTy → List ParamTy
  | ParamTy.tuple ts => ts
  | _ => []

/-- `ParamType.arrayChildren` (null on non-arrays in ethers; the guesser
only reads it on arrays, modelled with an arbitrary default elsewhere). -/
def ParamTy.arrayChildren : ParamTy → ParamTy
  | ParamTy.array child => child
  | _ => ParamTy.tuple []

/-- `formatParams`: comma-joined formats, as used to build tuple types. -/
def formatParams (params : List ParamTy) : String :=
  String.intercalate "," (ParamTy.formatList params)

/-- `areParamsConsistent`: the JS code inserts every `param.format()` into
a `Set` and checks `size === 1`, i.e. the list is non-empty and all
formats are equal. -/
def areParamsConsistent (params : List ParamTy) : Bool :=
  match params.map ParamTy.format with
  | [] => false
  | f :: rest => rest.all fun g => g == f

/-- A `DynamicPlaceholder` (offset plus optional length) or an already
settled `ParamType`; the source's `DecodedParam` union. -/
inductive DecodedParam where
  | ty (p : ParamTy) : DecodedParam
  | dyn (offset : Nat) (length : Option Nat) : DecodedParam

/-- A decoded concrete value as returned by the abstract codec: a 32-byte
word, a byte string, an array, a tuple, or some other primitive. -/
inductive Value where
  | word (bs : List Nat) : Value
  | bstr (bs : List Nat) : Value
  | arr (vs : List Value) : Value
  | tup (vs : List Value) : Value
  | prim : Value

/-- Bytes of a word/byte-string value (`arrayify(val)` in the source; the
other cases are unreachable there). -/
def Value.asBytes : Value → List Nat
  | Value.word bs => bs
  | Value.bstr bs => bs
  | _ => []

/-- Elements of an array/tuple value (`val.map(...)` in the source; the
other cases are unreachable there). -/
def Value.asList : Value → List Value
  | Value.arr vs => vs
  | Value.tup vs => vs
  | _ => []

/-- `BytesLike` from ethers: either raw bytes or a 0x-prefixed hex
string.  Both forms carry a `.length` property in JavaScript. -/
inductive BytesLike where
  | bytes (bs : List Nat) : BytesLike
  | hexString (s : String) : BytesLike

/-- The JavaScript `.length` property of a `BytesLike` value: the number
of bytes for a byte array, the number of characters for a string. -/
def BytesLike.length : BytesLike → Nat
  | BytesLike.bytes bs => bs.length
  | BytesLike.hexString s => s.length

/-- Value of a hex digit character (ethers throws on other characters;
the model is only applied to well-formed hex strings). -/
def hexDigitValue (c : Char) : Nat :=
  if '0' ≤ c ∧ c ≤ '9' then c.toNat - 48
  else if 'a' ≤ c ∧ c ≤ 'f' then c.toNat - 87
  else if 'A' ≤ c ∧ c ≤ 'F' then c.toNat - 55
  else 0

/-- Bytes of a list of hex digit characters, two characters per byte. -/
def hexPairsToBytes : List Char → List Nat
  | c1 :: c2 :: rest => (hexDigitValue c1 * 16 + hexDigitValue c2) :: hexPairsToBytes rest
  | _ => []

/-- ethers `arrayify`: a byte array is returned as is, a 0x-prefixed hex
string is converted to its bytes. -/
def arrayify : BytesLike → List Nat
  | BytesLike.bytes bs => bs
  | BytesLike.hexString s => hexPairsToBytes (s.toList.drop 2)

/-- The lowercase hex digit of a value below 16, as produced by
`hexlify`: 0-9 then a-f. -/
def hexChar (n : Nat) : Char :=
  Char.ofNat (if n < 10 then 48 + n else 87 + n)

/-- Two lowercase hex characters of one byte. -/
def byteToHex (b : Nat) : List Char :=
  [hexChar (b / 16 % 16), hexChar (b % 16)]

/-- `hexlify(bytes).substring(2)`: lowercase hex of a byte array, without
the 0x prefix. -/
def bytesToHex (bs : List Nat) : String :=
  String.mk (bs.map byteToHex).flatten

/-- Big-endian integer value of a word, `BigInt(hexlify(word))`. -/
def beWordValue (word : List Nat) : Nat :=
  word.foldl (fun acc b => acc * 256 + b) 0

/-- `isSafeNumber`: `val < BigInt(Number.MAX_SAFE_INTEGER)`, with
`MAX_SAFE_INTEGER = 2^53 - 1`. -/
def isSafeNumber (val : Nat) : Bool :=
  val < 2 ^ 53 - 1

/-- `data.slice(pos, pos + 32)`: the (at most 32-byte) word read at `pos`. -/
def wordAt (data : List Nat) (pos : Nat) : List Nat :=
  (data.drop pos).take 32

/-- `tryParseOffset`: read the word at `pos` and return it as a number if
it is a potentially valid offset into the data. -/
def tryParseOffset (data : List Nat) (pos : Nat) : Option Nat :=
  let word := wordAt data pos
  if word.length = 0 then none
  else
    let offset := beWordValue word
    -- can't be huge
    if ¬ isSafeNumber offset then none
    -- must be located in the correct region of calldata
    else if offset ≤ pos then none
    else if data.length ≤ offset then none
    -- must be a multiple of 32
    else if offset % 32 ≠ 0 then none
    else some offset

/-- `tryParseLength`: read the word at `offset` and return it as a number
if it is a potentially valid length for the data. -/
def tryParseLength (data : List Nat) (offset : Nat) : Option Nat :=
  let word := wordAt data offset
  if word.length = 0 then none
  else
    let length := beWordValue word
    -- can't be huge
    if ¬ isSafeNumber length then none
    -- must be valid
    else if data.length < offset + 32 + length then none
    else some length

/-- `countLeadingZeros`: bytes until the first non-zero byte. -/
def countLeadingZeros : List Nat → Nat
  | [] => 0
  | b :: rest => if b ≠ 0 then 0 else countLeadingZeros rest + 1

/-- `countTrailingZeros`: the source scans from the end of the array,
counting until the first non-zero byte. -/
def countTrailingZeros (arr : List Nat) : Nat :=
  countLeadingZeros arr.reverse

/-- The type of one recursive frame of `decodeWellFormedTuple` (the
`depth` argument of the source is debug-only and dropped): data,
paramIdx, collectedParams, endOfStaticCalldata, expectedLength,
isDynamicArrayElement. -/
abbrev Decoder : Type :=
  List Nat → Nat → List DecodedParam → Nat → Option Nat → Option Bool → Option (List ParamTy)

/-- `testParams` fused with the `if (testParams(fragment)) return fragment`
pattern of the source: a candidate passes iff it is non-null and the
codec probe (decode plus stringification of every value) accepts it. -/
def testParams (probe : List ParamTy → List Nat → Bool) (data : List Nat) :
    Option (List ParamTy) → Option (List ParamTy)
  | some params => if probe params data then some params else none
  | none => none

/-- A `for` loop that maps `f` over a list, aborting with `null` as soon
as `f` fails (the source's loop with an early `return`). -/
def mapOrFail {α β : Type} (f : α → Option β) : List α → Option (List β)
  | [] => some []
  | x :: xs =>
    match f x with
    | none => none
    | some y =>
      match mapOrFail f xs with
      | none => none
      | some ys => some (y :: ys)

/-- One step of a stable insertion sort on the key
`fun p => p.format().length`: the new element goes after every element
whose key is less than or equal to... here, before the first element
with a strictly larger-or-equal position: `x` is placed before the first
`y` with `x.key ≤ y.key`. -/
def insertByFormatLength (x : ParamTy) : List ParamTy → List ParamTy
  | [] => [x]
  | y :: rest =>
    if x.format.length ≤ y.format.length then x :: y :: rest
    else y :: insertByFormatLength x rest

/-- The JavaScript `.sort((a, b) => a.format().length - b.format().length)`:
a stable sort by format length (Array.prototype.sort is stable),
modelled as a stable insertion sort. -/
def sortByFormatLength : List ParamTy → List ParamTy
  | [] => []
  | x :: rest => insertByFormatLength x (sortByFormatLength rest)

/-- The first element of a list attaining the minimal format length
(earlier elements win ties); `(sortByFormatLength l).head?` computes
this. -/
def firstMinByFormatLength : List ParamTy → Option ParamTy
  | [] => none
  | x :: rest =>
    match firstMinByFormatLength rest with
    | none => some x
    | some m => some (if x.format.length ≤ m.format.length then x else m)

/-- `collectedParams.find((v, i) => i > idx && !ParamType.isParamType(v))`:
the first dynamic placeholder strictly after position `idx`. -/
def findNextDynamic (collectedParams : List DecodedParam) (idx : Nat) :
    Option (Nat × Option Nat) :=
  (collectedParams.drop (idx + 1)).findSome? fun p =>
    match p with
    | DecodedParam.dyn o l => some (o, l)
    | DecodedParam.ty _ => none

/-- Whether the placeholder at `idx` is the trailing dynamic parameter. -/
def isTrailingAt (collectedParams : List DecodedParam) (idx : Nat) : Bool :=
  (findNextDynamic collectedParams idx).isNone

/-- The dynamic payload slice of the placeholder at `idx` with the given
offset: `data.slice(dynamicDataStart, dynamicDataEnd)` where the start
skips the length word when a length is present and the end is the next
placeholder's offset, or the end of the data for the trailing one. -/
def dynamicDataOf (data : List Nat) (collectedParams : List DecodedParam)
    (idx offset : Nat) (hasLength : Bool) : List Nat :=
  let start := offset + (if hasLength then 32 else 0)
  let stop :=
    match findNextDynamic collectedParams idx with
    | none => data.length
    | some (o, _) => o
  (data.drop start).take (stop - start)

/-- The candidate interpretations of a dynamic placeholder with non-zero
length `n`, in source order: array-of-dynamic-with-length,
array-of-dynamic-without-length, array-of-static.  The first two are
kept only when the recursive decode succeeds.  The static interpretation
uses `wordsPerElement = Math.floor(dynamicData.length / 32 / n)` words
per element; the `numWords % n !== 0` test of the source (on the exact
float `dynamicData.length / 32`) is equivalent to
`dynamicData.length % (32 * n) ≠ 0`.  A failure in the static block
(`return undefined` in the source) aborts the whole resolution, hence
the `Option` around the candidate list. -/
def resolveCandidates (dec : Decoder) (dynamicData : List Nat) (n : Nat)
    (isTrailing : Bool) : Option (List (List ParamTy)) :=
  let decodedAssumingLength :=
    dec dynamicData 0 [] dynamicData.length (some n) (some true)
  let decodedAssumingNoLength :=
    dec dynamicData 0 [] dynamicData.length (some n) (some false)
  let dynamicResults :=
    (match decodedAssumingLength with
      | some l => [l]
      | none => []) ++
    (match decodedAssumingNoLength with
      | some l => [l]
      | none => [])
  if dynamicData.length % (32 * n) ≠ 0 ∧ isTrailing = false then
    -- only the trailing param may be right padded
    none
  else
    let wordsPerElement := dynamicData.length / 32 / n
    match mapOrFail (fun elemIdx =>
        match dec ((dynamicData.drop (elemIdx * wordsPerElement * 32)).take (wordsPerElement * 32))
            0 [] (wordsPerElement * 32) none none with
        | none => none
        | some params =>
          if params.length = 0 then none
          else if 1 < params.length then
            -- multiple types, wrap it in a tuple
            some (ParamTy.tuple params)
          else params.head?) (List.range n) with
    | none => none
    | some staticParseParams => some (dynamicResults ++ [staticParseParams])

/-- `maybeResolveDynamicParam`, parametrised by the recursive decoder
`dec` it calls on payload slices.  Resolves `collectedParams[idx]` to a
`ParamType`, or fails. -/
def maybeResolveDynamicParam (dec : Decoder) (data : List Nat)
    (collectedParams : List DecodedParam) (idx : Nat) : Option ParamTy :=
  match collectedParams.get? idx with
  | none => none
  | some (DecodedParam.ty p) => some p
  | some (DecodedParam.dyn offset length) =>
    let dynamicData := dynamicDataOf data collectedParams idx offset length.isSome
    match length with
    | none =>
      -- no length: must be a simple tuple or a static array
      match dec dynamicData 0 [] dynamicData.length none none with
      | none => none
      | some params => some (ParamTy.tuple params)
    | some len =>
      if len = 0 then
        -- empty string/bytes or empty dynamic array: the sentinel marker
        some (ParamTy.array (ParamTy.tuple []))
      else if len = dynamicData.length ∨
          (dynamicData.length % 32 = 0 ∧
            len = dynamicData.length - countTrailingZeros dynamicData) then
        -- exactly the declared number of bytes, or right-padded to a word
        some ParamTy.bytes
      else
        match resolveCandidates dec dynamicData len (isTrailingAt collectedParams idx) with
        | none => none
        | some allResults =>
          let validResults :=
            sortByFormatLength
              ((allResults.filter areParamsConsistent).filterMap List.head?)
          match validResults.head? with
          | none => none
          | some best => some (ParamTy.array best)

/-- `decodeWellFormedTuple`, with an explicit `fuel` bound on the
recursion depth (the source recursion terminates on every input it can
reach; `fuel` makes the embedding total, with `none` on exhaustion). -/
def decodeAux (probe : List ParamTy → List Nat → Bool) : Nat → Decoder
  | 0 => fun _ _ _ _ _ _ => none
  | fuel + 1 => fun data paramIdx collectedParams endOfStaticCalldata
      expectedLength isDynamicArrayElement =>
    let dec : Decoder := decodeAux probe fuel
    let paramOffset := paramIdx * 32
    if paramOffset < endOfStaticCalldata then
      -- still in the static region: determine the next param and recurse
      let dynamicBranches : Option (List ParamTy) :=
        match tryParseOffset data paramOffset with
        | none => none
        | some maybeOffset =>
          let withLength : Option (List ParamTy) :=
            match tryParseLength data maybeOffset with
            | none => none
            | some maybeLength =>
              if isDynamicArrayElement = none ∨ isDynamicArrayElement = some true then
                testParams probe data (dec data (paramIdx + 1)
                  (collectedParams ++ [DecodedParam.dyn maybeOffset (some maybeLength)])
                  (min endOfStaticCalldata maybeOffset) expectedLength isDynamicArrayElement)
              else none
          match withLength with
          | some r => some r
          | none =>
            if isDynamicArrayElement = none ∨ isDynamicArrayElement = some false then
              testParams probe data (dec data (paramIdx + 1)
                (collectedParams ++ [DecodedParam.dyn maybeOffset none])
                (min endOfStaticCalldata maybeOffset) expectedLength isDynamicArrayElement)
            else none
      match dynamicBranches with
      | some r => some r
      | none =>
        -- only assume it's static if we're allowed to
        if isDynamicArrayElement ≠ none then none
        else
          testParams probe data (dec data (paramIdx + 1)
            (collectedParams ++ [DecodedParam.ty (ParamTy.bytesN 32)])
            endOfStaticCalldata expectedLength isDynamicArrayElement)
    else
      -- end of static calldata: resolve the dynamic variables
      if (match expectedLength with
          | some k => collectedParams.length != k
          | none => false) then none
      else
        match mapOrFail (maybeResolveDynamicParam dec data collectedParams)
            (List.range collectedParams.length) with
        | none => none
        | some finalParams => testParams probe data (some finalParams)

/-- `mergeTypes`: merge parallel type branches into a common type.  The
recursion of the source is on component/element types; `fuel` bounds its
depth (the source always recurses on strictly shallower types).  On
non-tuples the source would read a null `components` (unreachable);
modelled by `ParamTy.components` returning `[]` there. -/
def mergeTypesF : Nat → List ParamTy → ParamTy
  | 0, _ => ParamTy.tuple []
  | fuel + 1, types =>
    if types.length = 0 then ParamTy.tuple []
    else if types.any fun v => v.baseType == "tuple" then
      ParamTy.tuple ((List.range (types.headD (ParamTy.tuple [])).components.length).map
        fun i => mergeTypesF fuel (types.map fun v => v.components.getD i (ParamTy.tuple [])))
    else if types.any fun v => v.baseType == "array" then
      ParamTy.array (mergeTypesF fuel (types.map fun v => v.arrayChildren))
    else
      let set := (types.map ParamTy.format).eraseDups
      if set.length = 1 then types.headD (ParamTy.tuple [])
      else if set.contains "bytes" then ParamTy.bytes
      else if set.contains "uint256" then ParamTy.uint256
      else ParamTy.bytesN 32

mutual

/-- One slot of `prettyTypes`: refine a candidate type using its concrete
decoded value.  The source branches on `param.type === 'bytes32'`
(exactly the `bytesN 32` case), `param.type === 'bytes'`,
`param.baseType === 'array'` and `param.baseType === 'tuple'`, returning
the type unchanged otherwise.  `mfuel` is the fuel for `mergeTypesF`. -/
def prettyOne (utf8Ok : List Nat → Bool) (mfuel : Nat) : ParamTy → Value → ParamTy
  | ParamTy.bytesN 32, val =>
    let leadingZeros := countLeadingZeros val.asBytes
    let trailingZeros := countTrailingZeros val.asBytes
    if 12 ≤ leadingZeros ∧ leadingZeros ≤ 17 then
      -- it's probably very hard to mine more leading zeros than that
      ParamTy.address
    else if 16 < leadingZeros then ParamTy.uint256
    else if 0 < trailingZeros then ParamTy.bytesN (32 - trailingZeros)
    else ParamTy.bytesN 32
  | ParamTy.bytes, val =>
    -- toUtf8String(val) succeeds: string; throws: bytes
    if utf8Ok val.asBytes then ParamTy.string else ParamTy.bytes
  | ParamTy.array child, val =>
    ParamTy.array (mergeTypesF mfuel
      (val.asList.map fun childVal => prettyOne utf8Ok mfuel child childVal))
  | ParamTy.tuple components, val =>
    ParamTy.tuple (prettyList utf8Ok mfuel components val.asList)
  | p, _ => p

/-- `prettyTypes`: refine every slot against the corresponding decoded
value (`vals[idx]`; a missing value is unreachable in the source and
modelled by the opaque `Value.prim`). -/
def prettyList (utf8Ok : List Nat → Bool) (mfuel : Nat) :
    List ParamTy → List Value → List ParamTy
  | [], _ => []
  | p :: ps, vals =>
    prettyOne utf8Ok mfuel p (vals.headD Value.prim) :: prettyList utf8Ok mfuel ps vals.tail

end

/-- `guessAbiEncodedData`.  Exactly as in the source, the decoder is
seeded with `endOfStaticCalldata := bytes.length` — the `.length`
property of the `BytesLike` argument — while the decoder itself works on
`arrayify(bytes)`.  `probe` is the codec probe, `decodeVals` the codec's
decoded values (used by the final refinement; the probe has already
accepted `params` on this data when it is called), `utf8Ok` the UTF-8
validity test, and `fuel` the recursion bound of the embedding. -/
def guessAbiEncodedData (probe : List ParamTy → List Nat → Bool)
    (decodeVals : List ParamTy → List Nat → List Value)
    (utf8Ok : List Nat → Bool) (fuel : Nat) (bytes : BytesLike) :
    Option (List ParamTy) :=
  match decodeAux probe fuel (arrayify bytes) 0 [] bytes.length none none with
  | none => none
  | some params =>
    some (prettyList utf8Ok fuel params (decodeVals params (arrayify bytes)))

/-- A `FunctionFragment`, modelled by the two fields the guesser
produces: `FunctionFragment.from('guessed_<selector>(<params>)')` yields
the fragment with that name and those inputs. -/
structure FunctionFrag where
  name : String
  inputs : List ParamTy

/-- `guessFragment`: split the 4-byte selector off, guess the rest, and
synthesize a fragment named after the selector. -/
def guessFragment (probe : List ParamTy → List Nat → Bool)
    (decodeVals : List ParamTy → List Nat → List Value)
    (utf8Ok : List Nat → Bool) (fuel : Nat) (calldata : BytesLike) :
    Option FunctionFrag :=
  let bytes := arrayify calldata
  if bytes.length = 0 then none
  else
    let tupleData := bytes.drop 4
    match guessAbiEncodedData probe decodeVals utf8Ok fuel (BytesLike.bytes tupleData) with
    | none => none
    | some params =>
      let selector := bytesToHex (bytes.take 4)
      some { name := "guessed_" ++ selector, inputs := params }

/-! ### Concrete oracle instances and inputs used by witnesses -/

/-- A codec probe that accepts a candidate list exactly when it consists
of as many static words as the data holds (enough of the real codec's
behaviour to exercise the decoder on all-static inputs). -/
def probeLengthMatches : List ParamTy → List Nat → Bool := fun params data =>
  params.length * 32 == data.length

/-- The all-accepting codec probe. -/
def probeTrue : List ParamTy → List Nat → Bool := fun _ _ => true

/-- A value oracle returning one zero word. -/
def dvZeroWord : List ParamTy → List Nat → List Value := fun _ _ =>
  [Value.word (List.replicate 32 0)]

/-- A value oracle returning no values. -/
def dvNil : List ParamTy → List Nat → List Value := fun _ _ => []

/-- A UTF-8 test that rejects everything. -/
def utf8No : List Nat → Bool := fun _ => false

/-- A decoder that always fails. -/
def decNone : Decoder := fun _ _ _ _ _ _ => none

/-- A decoder returning fixed results keyed on `isDynamicArrayElement`,
used to exercise the candidate ranking of the placeholder resolution. -/
def decTwoCand : Decoder := fun _ _ _ _ _ isDynamicArrayElement =>
  match isDynamicArrayElement with
  | some true => some [ParamTy.uint256, ParamTy.uint256]
  | some false => none
  | none => some [ParamTy.bytesN 32]

/-- 32 zero bytes written as a 0x-prefixed hex string. -/
def zeroWordHexInput : BytesLike :=
  BytesLike.hexString (String.mk ('0' :: 'x' :: List.replicate 64 '0'))

/-- A word whose big-endian value is 32, followed by 32 further bytes. -/
def offsetWordData : List Nat := List.replicate 31 0 ++ 32 :: List.replicate 32 7

/-- Offset word, length word (3), then the 3 bytes `abc` right-padded. -/
def bytesPayloadData : List Nat :=
  List.replicate 64 0 ++ [97, 98, 99] ++ List.replicate 29 0

/-- 160 arbitrary non-zero bytes. -/
def onesData : List Nat := List.replicate 160 1

/-- Calldata with selector 0x01020304 followed by one zero word. -/
def selectorCalldata : List Nat := [1, 2, 3, 4] ++ List.replicate 32 0

/-- A word with exactly 12 leading zero bytes. -/
def addressLikeWord : List Nat := List.replicate 12 0 ++ List.replicate 20 1

/-! ### Helper lemmas -/

theorem testParams_eq_some {probe : List ParamTy → List Nat → Bool} {data : List Nat}
    {f : Option (List ParamTy)} {l : List ParamTy}
    (h : testParams probe data f = some l) : f = some l := by
  cases f with
  | none => simp [testParams] at h
  | some params =>
    simp only [testParams] at h
    split at h
    · exact h
    · exact absurd h (by simp)

theorem mapOrFail_length {α β : Type} (f : α → Option β) :
    ∀ (xs : List α) (ys : List β), mapOrFail f xs = some ys → ys.length = xs.length := by
  intro xs
  induction xs with
  | nil =>
    intro ys h
    simp only [mapOrFail, Option.some.injEq] at h
    subst h
    rfl
  | cons x rest ih =>
    intro ys h
    simp only [mapOrFail] at h
    cases hx : f x with
    | none => rw [hx] at h; exact absurd h (by simp)
    | some y =>
      rw [hx] at h
      cases hr : mapOrFail f rest with
      | none => rw [hr] at h; exact absurd h (by simp)
      | some ys0 =>
        rw [hr] at h
        cases h
        simp [ih ys0 hr]

theorem decodeAux_expectedLength (probe : List ParamTy → List Nat → Bool) :
    ∀ (fuel : Nat) (data : List Nat) (paramIdx : Nat)
      (collectedParams : List DecodedParam) (endOfStatic k : Nat)
      (isDynamicArrayElement : Option Bool) (l : List ParamTy),
      decodeAux probe fuel data paramIdx collectedParams endOfStatic (some k)
        isDynamicArrayElement = some l →
      l.length = k := by
  intro fuel
  induction fuel with
  | zero =>
    intro data paramIdx collectedParams eos k isDyn l h
    simp [decodeAux] at h
  | succ n ih =>
    intro data paramIdx collectedParams eos k isDyn l h
    simp only [decodeAux] at h
    by_cases hs : paramIdx * 32 < eos
    · rw [if_pos hs] at h
      split at h
      case _ r heq =>
        -- a dynamic branch succeeded
        cases h
        split at heq
        · exact absurd heq (by simp)
        case _ maybeOffset =>
          split at heq
          case _ r2 heq2 =>
            cases heq
            split at heq2
            · exact absurd heq2 (by simp)
            case _ maybeLength =>
              split at heq2
              · exact ih _ _ _ _ _ _ _ (testParams_eq_some heq2)
              · exact absurd heq2 (by simp)
          case _ heq2 =>
            split at heq
            · exact ih _ _ _ _ _ _ _ (testParams_eq_some heq)
            · exact absurd heq (by simp)
      case _ heq =>
        -- all dynamic branches failed; the static fallback
        split at h
        · exact absurd h (by simp)
        · exact ih _ _ _ _ _ _ _ (testParams_eq_some h)
    · rw [if_neg hs] at h
      split at h
      · exact absurd h (by simp)
      case _ hk =>
        have hlen : collectedParams.length = k := by
          simpa using hk
        split at h
        · exact absurd h (by simp)
        case _ finalParams heq =>
          have hl : some finalParams = some l := testParams_eq_some h
          cases hl
          have := mapOrFail_length _ _ _ heq
          simpa [hlen] using this

theorem insertByFormatLength_head (x : ParamTy) (s : List ParamTy) :
    (insertByFormatLength x s).head? =
      some (match s.head? with
        | none => x
        | some y => if x.format.length ≤ y.format.length then x else y) := by
  cases s with
  | nil => rfl
  | cons y rest =>
    by_cases hxy : x.format.length ≤ y.format.length <;>
      simp [insertByFormatLength, hxy]

theorem sortByFormatLength_head (l : List ParamTy) :
    (sortByFormatLength l).head? = firstMinByFormatLength l := by
  induction l with
  | nil => rfl
  | cons x rest ih =>
    simp only [sortByFormatLength, firstMinByFormatLength, insertByFormatLength_head, ih]
    cases firstMinByFormatLength rest <;> rfl

theorem firstMinByFormatLength_eq_none {l : List ParamTy}
    (h : firstMinByFormatLength l = none) : l = [] := by
  cases l with
  | nil => rfl
  | cons x rest =>
    simp only [firstMinByFormatLength] at h
    cases hr : firstMinByFormatLength rest with
    | none => rw [hr] at h; simp at h
    | some m => rw [hr] at h; simp at h

theorem firstMinByFormatLength_le {l : List ParamTy} {m : ParamTy}
    (h : firstMinByFormatLength l = some m) :
    ∀ y ∈ l, m.format.length ≤ y.format.length := by
  induction l generalizing m with
  | nil => simp [firstMinByFormatLength] at h
  | cons x rest ih =>
    simp only [firstMinByFormatLength] at h
    cases hr : firstMinByFormatLength rest with
    | none =>
      rw [hr] at h
      cases h
      have : rest = [] := firstMinByFormatLength_eq_none hr
      subst this
      intro y hy
      simp only [List.mem_singleton] at hy
      subst hy
      exact le_refl _
    | some m0 =>
      rw [hr] at h
      cases h
      intro y hy
      rcases List.mem_cons.mp hy with rfl | hy
      · split <;> omega
      · have := ih hr y hy
        split <;> omega

theorem areParamsConsistent_head {c : List ParamTy}
    (h : areParamsConsistent c = true) : ∃ h0, c.head? = some h0 := by
  cases c with
  | nil => simp [areParamsConsistent] at h
  | cons x rest => exact ⟨x, rfl⟩

theorem head_mem_consistent_heads :
    ∀ (cands : List (List ParamTy)) (j : Nat) (c2 : List ParamTy) (h : ParamTy),
      cands.get? j = some c2 → areParamsConsistent c2 = true → c2.head? = some h →
      h ∈ (cands.filter areParamsConsistent).filterMap List.head? := by
  intro cands
  induction cands with
  | nil => intro j c2 h hj; simp at hj
  | cons c rest ih =>
    intro j c2 h hj hcons hhead
    by_cases hc : areParamsConsistent c = true
    · rw [List.filter_cons_of_pos hc]
      obtain ⟨h0, hh0⟩ := areParamsConsistent_head hc
      simp only [List.filterMap_cons, hh0]
      cases j with
      | zero =>
        simp only [List.get?] at hj
        cases hj
        rw [hhead] at hh0
        cases hh0
        exact List.mem_cons_self _ _
      | succ j0 =>
        simp only [List.get?] at hj
        exact List.mem_cons_of_mem _ (ih j0 c2 h hj hcons hhead)
    · rw [List.filter_cons_of_neg (by simpa using hc)]
      cases j with
      | zero =>
        simp only [List.get?] at hj
        cases hj
        exact absurd hcons hc
      | succ j0 =>
        simp only [List.get?] at hj
        exact ih j0 c2 h hj hcons hhead

theorem firstMin_heads_spec :
    ∀ (cands : List (List ParamTy)) (T : ParamTy),
      firstMinByFormatLength ((cands.filter areParamsConsistent).filterMap List.head?) = some T →
      ∃ i c, cands.get? i = some c ∧ areParamsConsistent c = true ∧ c.head? = some T ∧
        (∀ j c2 h2, cands.get? j = some c2 → areParamsConsistent c2 = true →
          c2.head? = some h2 → T.format.length ≤ h2.format.length) ∧
        (∀ j c2 h2, j < i → cands.get? j = some c2 → areParamsConsistent c2 = true →
          c2.head? = some h2 → T.format.length < h2.format.length) := by
  intro cands
  induction cands with
  | nil =>
    intro T h
    simp [firstMinByFormatLength] at h
  | cons c rest ih =>
    intro T h
    by_cases hc : areParamsConsistent c = true
    · obtain ⟨h0, hh0⟩ := areParamsConsistent_head hc
      rw [List.filter_cons_of_pos hc] at h
      simp only [List.filterMap_cons, hh0] at h
      simp only [firstMinByFormatLength] at h
      cases hr : firstMinByFormatLength
          (List.filterMap List.head? (List.filter areParamsConsistent rest)) with
      | none =>
        rw [hr] at h
        cases h
        have hnil := firstMinByFormatLength_eq_none hr
        refine ⟨0, c, rfl, hc, hh0, ?_, ?_⟩
        · intro j c2 h2 hj hcons hhead
          cases j with
          | zero =>
            simp only [List.get?] at hj
            cases hj
            rw [hh0] at hhead
            cases hhead
            exact le_refl _
          | succ j0 =>
            simp only [List.get?] at hj
            have hmem := head_mem_consistent_heads rest j0 c2 h2 hj hcons hhead
            rw [hnil] at hmem
            simp at hmem
        · intro j c2 h2 hjlt _ _ _
          exact absurd hjlt (Nat.not_lt_zero j)
      | some m =>
        rw [hr] at h
        replace h : some (if h0.format.length ≤ m.format.length then h0 else m) = some T := h
        by_cases hle : h0.format.length ≤ m.format.length
        · rw [if_pos hle] at h
          cases h
          refine ⟨0, c, rfl, hc, hh0, ?_, ?_⟩
          · intro j c2 h2 hj hcons hhead
            cases j with
            | zero =>
              simp only [List.get?] at hj
              cases hj
              rw [hh0] at hhead
              cases hhead
              exact le_refl _
            | succ j0 =>
              simp only [List.get?] at hj
              have hmem := head_mem_consistent_heads rest j0 c2 h2 hj hcons hhead
              have := firstMinByFormatLength_le hr h2 hmem
              omega
          · intro j c2 h2 hjlt _ _ _
            exact absurd hjlt (Nat.not_lt_zero j)
        · rw [if_neg hle] at h
          cases h
          obtain ⟨i0, c0, hj0, hcons0, hhead0, hmin0, hfirst0⟩ := ih _ hr
          refine ⟨i0 + 1, c0, hj0, hcons0, hhead0, ?_, ?_⟩
          · intro j c2 h2 hj hcons hhead
            cases j with
            | zero =>
              simp only [List.get?] at hj
              cases hj
              rw [hh0] at hhead
              cases hhead
              omega
            | succ j0 =>
              simp only [List.get?] at hj
              exact hmin0 j0 c2 h2 hj hcons hhead
          · intro j c2 h2 hjlt hj hcons hhead
            cases j with
            | zero =>
              simp only [List.get?] at hj
              cases hj
              rw [hh0] at hhead
              cases hhead
              omega
            | succ j0 =>
              simp only [List.get?] at hj
              exact hfirst0 j0 c2 h2 (by omega) hj hcons hhead
    · rw [List.filter_cons_of_neg (by simpa using hc)] at h
      obtain ⟨i0, c0, hj0, hcons0, hhead0, hmin0, hfirst0⟩ := ih _ h
      refine ⟨i0 + 1, c0, hj0, hcons0, hhead0, ?_, ?_⟩
      · intro j c2 h2 hj hcons hhead
        cases j with
        | zero =>
          simp only [List.get?] at hj
          cases hj
          exact absurd hcons hc
        | succ j0 =>
          simp only [List.get?] at hj
          exact hmin0 j0 c2 h2 hj hcons hhead
      · intro j c2 h2 hjlt hj hcons hhead
        cases j with
        | zero =>
          simp only [List.get?] at hj
          cases hj
          exact absurd hcons hc
        | succ j0 =>
          simp only [List.get?] at hj
          exact hfirst0 j0 c2 h2 (by omega) hj hcons hhead

theorem guessAbiEncodedData_nil (probe : List ParamTy → List Nat → Bool)
    (decodeVals : List ParamTy → List Nat → List Value) (utf8Ok : List Nat → Bool)
    (fuel : Nat) (h : probe [] [] = true) :
    guessAbiEncodedData probe decodeVals utf8Ok (fuel + 1) (BytesLike.bytes []) = some [] := by
  simp [guessAbiEncodedData, decodeAux, arrayify, BytesLike.length, mapOrFail,
    testParams, h, prettyList]

/-! ### The claims -/

/-- Claim C3: `try_parse_offset(data, pos)` returns an offset (rather
than failing) if and only if the 32-byte word read at `pos` is
non-empty, its big-endian integer value is a safe integer (strictly
below 2^53 − 1), `pos < offset < len(data)`, and the offset is a
multiple of 32; and the offset returned is exactly that big-endian
value. -/
theorem claim3_tryParseOffset_iff (data : List Nat) (pos : Nat) :
    ((tryParseOffset data pos).isSome ↔
      (wordAt data pos ≠ [] ∧
        beWordValue (wordAt data pos) < 2 ^ 53 - 1 ∧
        pos < beWordValue (wordAt data pos) ∧
        beWordValue (wordAt data pos) < data.length ∧
        beWordValue (wordAt data pos) % 32 = 0)) ∧
    ∀ off, tryParseOffset data pos = some off → off = beWordValue (wordAt data pos) := by
  have heq : tryParseOffset data pos =
      if wordAt data pos ≠ [] ∧
          beWordValue (wordAt data pos) < 2 ^ 53 - 1 ∧
          pos < beWordValue (wordAt data pos) ∧
          beWordValue (wordAt data pos) < data.length ∧
          beWordValue (wordAt data pos) % 32 = 0 then
        some (beWordValue (wordAt data pos))
      else none := by
    simp only [tryParseOffset, isSafeNumber]
    by_cases h0 : (wordAt data pos).length = 0
    · rw [if_pos h0]
      rw [if_neg]
      simp [List.length_eq_zero.mp h0]
    · rw [if_neg h0]
      have hne : wordAt data pos ≠ [] := fun hnil => h0 (by simp [hnil])
      by_cases h1 : beWordValue (wordAt data pos) < 2 ^ 53 - 1
      · rw [if_neg (not_not_intro (by simpa using h1))]
        by_cases h2 : beWordValue (wordAt data pos) ≤ pos
        · rw [if_pos h2, if_neg]
          omega
        · rw [if_neg h2]
          by_cases h3 : data.length ≤ beWordValue (wordAt data pos)
          · rw [if_pos h3, if_neg]
            omega
          · rw [if_neg h3]
            by_cases h4 : beWordValue (wordAt data pos) % 32 = 0
            · rw [if_neg (by simpa using h4), if_pos]
              exact ⟨hne, h1, by omega, by omega, h4⟩
            · rw [if_pos (by simpa using h4), if_neg]
              intro hcond
              exact h4 hcond.2.2.2.2
      · rw [if_pos (by simp only [decide_eq_true_eq]; exact h1)]
        rw [if_neg]
        intro hcond
        exact h1 hcond.2.1
  constructor
  · rw [heq]
    split <;> simp_all
  · intro off hoff
    rw [heq] at hoff
    split at hoff
    · exact (Option.some.injEq _ _ ▸ hoff).symm
    · exact absurd hoff (by simp)

/-- Claim C3 witness: on a concrete buffer whose first word is 32 and
whose length is 64, all conditions hold and the parse succeeds. -/
theorem claim3_witness : (tryParseOffset offsetWordData 0).isSome := by
  exact (claim3_tryParseOffset_iff offsetWordData 0).1.mpr (by decide)

/-- Claim C7: every frame of the decoder on which an expected length `k`
is imposed returns `none` or a list of exactly `k` types. -/
theorem claim7_length_consistency (probe : List ParamTy → List Nat → Bool)
    (fuel : Nat) (data : List Nat) (paramIdx : Nat)
    (collectedParams : List DecodedParam) (endOfStatic k : Nat)
    (isDynamicArrayElement : Option Bool) (l : List ParamTy)
    (h : decodeAux probe fuel data paramIdx collectedParams endOfStatic (some k)
      isDynamicArrayElement = some l) :
    l.length = k :=
  decodeAux_expectedLength probe fuel data paramIdx collectedParams endOfStatic k
    isDynamicArrayElement l h

/-- Claim C7 witness: a concrete frame with `expected_length = 1` on one
static word returns a one-element list. -/
theorem claim7_witness : ([ParamTy.bytesN 32] : List ParamTy).length = 1 :=
  claim7_length_consistency probeTrue 2 (List.replicate 32 0) 0 [] 32 1 none
    [ParamTy.bytesN 32] rfl

/-- Claim C9: on the empty byte array, `guess_abi_encoded_data` returns
the empty type list (not `None`), given that the codec probe accepts the
empty tuple on empty data (the real codec does). -/
theorem claim9_empty_input (probe : List ParamTy → List Nat → Bool)
    (decodeVals : List ParamTy → List Nat → List Value) (utf8Ok : List Nat → Bool)
    (fuel : Nat) (h : probe [] [] = true) :
    guessAbiEncodedData probe decodeVals utf8Ok (fuel + 1) (BytesLike.bytes []) = some [] :=
  guessAbiEncodedData_nil probe decodeVals utf8Ok fuel h

/-- Claim C9 witness: concrete oracles. -/
theorem claim9_witness :
    guessAbiEncodedData probeTrue dvNil utf8No 1 (BytesLike.bytes []) = some [] :=
  claim9_empty_input probeTrue dvNil utf8No 0 rfl

/-- Claim C10: on non-empty calldata shorter than 4 bytes,
`guess_fragment` returns a fragment named after the lowercase hex of all
available bytes, with an empty parameter list (given that the codec
probe accepts the empty tuple on empty data, as the real codec does). -/
theorem claim10_short_calldata (probe : List ParamTy → List Nat → Bool)
    (decodeVals : List ParamTy → List Nat → List Value) (utf8Ok : List Nat → Bool)
    (fuel : Nat) (c : List Nat) (h1 : c ≠ []) (h2 : c.length < 4)
    (h3 : probe [] [] = true) :
    guessFragment probe decodeVals utf8Ok (fuel + 1) (BytesLike.bytes c) =
      some { name := "guessed_" ++ bytesToHex c, inputs := [] } := by
  have hd : c.drop 4 = [] := List.drop_eq_nil_of_le (by omega)
  have ht : c.take 4 = c := List.take_of_length_le (by omega)
  have hlen : ¬ c.length = 0 := fun h => h1 (List.length_eq_zero.mp h)
  simp only [guessFragment, arrayify, if_neg hlen, hd, ht,
    guessAbiEncodedData_nil probe decodeVals utf8Ok fuel h3]

/-- Claim C10 witness: a single byte 0xab yields the fragment
`guessed_ab()`. -/
theorem claim10_witness :
    guessFragment probeTrue dvNil utf8No 1 (BytesLike.bytes [171]) =
      some { name := "guessed_" ++ bytesToHex [171], inputs := [] } :=
  claim10_short_calldata probeTrue dvNil utf8No 0 [171] (by decide) (by decide) rfl

/-- Claim C6: in value-driven refinement a `bytes32` slot with concrete
word `w` becomes `address` iff the leading-zero byte count lies in
`[12, 17]`; otherwise it becomes `uint256` when that count exceeds 16,
else `bytes(32 − tz)` when the trailing-zero count `tz` is positive,
else stays `bytes32`. -/
theorem claim6_bytes32_refinement (utf8Ok : List Nat → Bool) (mfuel : Nat) (w : List Nat) :
    (prettyOne utf8Ok mfuel (ParamTy.bytesN 32) (Value.word w) = ParamTy.address ↔
      (12 ≤ countLeadingZeros w ∧ countLeadingZeros w ≤ 17)) ∧
    (¬ (12 ≤ countLeadingZeros w ∧ countLeadingZeros w ≤ 17) →
      prettyOne utf8Ok mfuel (ParamTy.bytesN 32) (Value.word w) =
        (if 16 < countLeadingZeros w then ParamTy.uint256
         else if 0 < countTrailingZeros w then ParamTy.bytesN (32 - countTrailingZeros w)
         else ParamTy.bytesN 32)) := by
  have hpretty : prettyOne utf8Ok mfuel (ParamTy.bytesN 32) (Value.word w) =
      (if 12 ≤ countLeadingZeros w ∧ countLeadingZeros w ≤ 17 then ParamTy.address
       else if 16 < countLeadingZeros w then ParamTy.uint256
       else if 0 < countTrailingZeros w then ParamTy.bytesN (32 - countTrailingZeros w)
       else ParamTy.bytesN 32) := rfl
  constructor
  · rw [hpretty]
    by_cases h : 12 ≤ countLeadingZeros w ∧ countLeadingZeros w ≤ 17
    · simp [h]
    · rw [if_neg h]
      simp only [h, iff_false]
      split_ifs <;> simp
  · intro h
    rw [hpretty, if_neg h]

/-- Claim C6 witness: a word with 12 leading zero bytes is refined to
`address`. -/
theorem claim6_witness :
    prettyOne utf8No 0 (ParamTy.bytesN 32) (Value.word addressLikeWord) = ParamTy.address :=
  (claim6_bytes32_refinement utf8No 0 addressLikeWord).1.mpr (by decide)

theorem maybeResolve_dyn_some_eq (dec : Decoder) (data : List Nat)
    (collectedParams : List DecodedParam) (idx offset n : Nat)
    (hidx : collectedParams.get? idx = some (DecodedParam.dyn offset (some n))) :
    maybeResolveDynamicParam dec data collectedParams idx =
      (if n = 0 then some (ParamTy.array (ParamTy.tuple []))
       else if n = (dynamicDataOf data collectedParams idx offset true).length ∨
          ((dynamicDataOf data collectedParams idx offset true).length % 32 = 0 ∧
            n = (dynamicDataOf data collectedParams idx offset true).length -
              countTrailingZeros (dynamicDataOf data collectedParams idx offset true)) then
        some ParamTy.bytes
       else
        match resolveCandidates dec (dynamicDataOf data collectedParams idx offset true) n
            (isTrailingAt collectedParams idx) with
        | none => none
        | some allResults =>
          match (sortByFormatLength
              ((allResults.filter areParamsConsistent).filterMap List.head?)).head? with
          | none => none
          | some best => some (ParamTy.array best)) := by
  unfold maybeResolveDynamicParam
  rw [hidx]
  rfl

/-- Claim C4: a dynamic placeholder carrying a non-zero declared length
`n` resolves to the byte-string type `bytes` if and only if `n` equals
the payload slice length, or the payload slice length is a multiple of
32 and `n` equals that length minus the payload's trailing zero bytes. -/
theorem claim4_bytes_condition (dec : Decoder) (data : List Nat)
    (collectedParams : List DecodedParam) (idx offset n : Nat)
    (hidx : collectedParams.get? idx = some (DecodedParam.dyn offset (some n)))
    (hn : n ≠ 0) :
    (maybeResolveDynamicParam dec data collectedParams idx = some ParamTy.bytes ↔
      (n = (dynamicDataOf data collectedParams idx offset true).length ∨
        ((dynamicDataOf data collectedParams idx offset true).length % 32 = 0 ∧
          n = (dynamicDataOf data collectedParams idx offset true).length -
            countTrailingZeros (dynamicDataOf data collectedParams idx offset true)))) := by
  rw [maybeResolve_dyn_some_eq dec data collectedParams idx offset n hidx]
  rw [if_neg hn]
  by_cases hb : n = (dynamicDataOf data collectedParams idx offset true).length ∨
      ((dynamicDataOf data collectedParams idx offset true).length % 32 = 0 ∧
        n = (dynamicDataOf data collectedParams idx offset true).length -
          countTrailingZeros (dynamicDataOf data collectedParams idx offset true))
  · rw [if_pos hb]
    simp [hb]
  · rw [if_neg hb]
    simp only [hb, iff_false]
    cases hres : resolveCandidates dec (dynamicDataOf data collectedParams idx offset true) n
        (isTrailingAt collectedParams idx) with
    | none => simp
    | some allResults =>
      cases hh : (sortByFormatLength
          ((allResults.filter areParamsConsistent).filterMap List.head?)).head? with
      | none => simp [hh]
      | some best =>
        simp only [hh]
        exact fun hcontra => ParamTy.noConfusion (Option.some.inj hcontra)

set_option maxRecDepth 4000 in
/-- Claim C4 witness: a placeholder of declared length 3 whose 32-byte
payload ends in 29 zero bytes is classified as `bytes`. -/
theorem claim4_witness :
    maybeResolveDynamicParam decNone bytesPayloadData [DecodedParam.dyn 32 (some 3)] 0 =
      some ParamTy.bytes :=
  (claim4_bytes_condition decNone bytesPayloadData [DecodedParam.dyn 32 (some 3)] 0 32 3
    rfl (by decide)).mpr (by decide)

/-- Claim C5: when resolution of a placeholder with non-zero length
returns an array type `T[]`, `T` is the head of one of the produced
candidate interpretations; that candidate has format-identical element
types, every produced candidate without format-identical element types
is discarded, `T` has the shortest format string among the heads of the
surviving candidates, and every surviving candidate occurring earlier in
insertion order has a strictly longer head format (ties are broken by
insertion order). -/
theorem claim5_array_candidate_ranking (dec : Decoder) (data : List Nat)
    (collectedParams : List DecodedParam) (idx offset n : Nat) (T : ParamTy)
    (cands : List (List ParamTy))
    (hidx : collectedParams.get? idx = some (DecodedParam.dyn offset (some n)))
    (hn : n ≠ 0)
    (hres : maybeResolveDynamicParam dec data collectedParams idx = some (ParamTy.array T))
    (hcands : resolveCandidates dec (dynamicDataOf data collectedParams idx offset true) n
      (isTrailingAt collectedParams idx) = some cands) :
    ∃ i c, cands.get? i = some c ∧ areParamsConsistent c = true ∧ c.head? = some T ∧
      (∀ j c2 h2, cands.get? j = some c2 → areParamsConsistent c2 = true →
        c2.head? = some h2 → T.format.length ≤ h2.format.length) ∧
      (∀ j c2 h2, j < i → cands.get? j = some c2 → areParamsConsistent c2 = true →
        c2.head? = some h2 → T.format.length < h2.format.length) := by
  rw [maybeResolve_dyn_some_eq dec data collectedParams idx offset n hidx] at hres
  rw [if_neg hn] at hres
  by_cases hb : n = (dynamicDataOf data collectedParams idx offset true).length ∨
      ((dynamicDataOf data collectedParams idx offset true).length % 32 = 0 ∧
        n = (dynamicDataOf data collectedParams idx offset true).length -
          countTrailingZeros (dynamicDataOf data collectedParams idx offset true))
  · rw [if_pos hb] at hres
    exact absurd hres (by simp)
  · rw [if_neg hb, hcands] at hres
    replace hres : (match (sortByFormatLength
        ((cands.filter areParamsConsistent).filterMap List.head?)).head? with
      | none => (none : Option ParamTy)
      | some best => some (ParamTy.array best)) = some (ParamTy.array T) := hres
    cases hh : (sortByFormatLength
        ((cands.filter areParamsConsistent).filterMap List.head?)).head? with
    | none =>
      rw [hh] at hres
      exact absurd hres (by simp)
    | some best =>
      rw [hh] at hres
      replace hres : some (ParamTy.array best) = some (ParamTy.array T) := hres
      injection hres with hres2
      injection hres2 with hres3
      subst hres3
      rw [sortByFormatLength_head] at hh
      exact firstMin_heads_spec cands _ hh

set_option maxRecDepth 4000 in
/-- Claim C5 witness: a concrete resolution with two consistent
candidates whose heads tie on format length (`uint256` vs `bytes32`)
returns the earlier one, `uint256[]`. -/
theorem claim5_witness :
    ∃ i c,
      ([[ParamTy.uint256, ParamTy.uint256],
        [ParamTy.bytesN 32, ParamTy.bytesN 32]] : List (List ParamTy)).get? i = some c ∧
      areParamsConsistent c = true ∧ c.head? = some ParamTy.uint256 ∧
      (∀ j c2 h2,
        ([[ParamTy.uint256, ParamTy.uint256],
          [ParamTy.bytesN 32, ParamTy.bytesN 32]] : List (List ParamTy)).get? j = some c2 →
        areParamsConsistent c2 = true → c2.head? = some h2 →
        ParamTy.uint256.format.length ≤ h2.format.length) ∧
      (∀ j c2 h2, j < i →
        ([[ParamTy.uint256, ParamTy.uint256],
          [ParamTy.bytesN 32, ParamTy.bytesN 32]] : List (List ParamTy)).get? j = some c2 →
        areParamsConsistent c2 = true → c2.head? = some h2 →
        ParamTy.uint256.format.length < h2.format.length) :=
  claim5_array_candidate_ranking decTwoCand onesData [DecodedParam.dyn 32 (some 2)] 0 32 2
    ParamTy.uint256
    [[ParamTy.uint256, ParamTy.uint256], [ParamTy.bytesN 32, ParamTy.bytesN 32]]
    rfl (by decide) rfl rfl

/-- Claim C2 counterexample: `guess_abi_encoded_data` passes the raw
`.length` property of its `BytesLike` argument as the initial
`end_of_static` bound, while the decoder reads from `arrayify(bytes)`.
For the hex-string input carrying 32 zero bytes the two lengths differ
(66 characters vs 32 bytes), and the outcome differs from the same bytes
passed as a byte array: the decoder, driven past the real data by the
over-large bound, collects too many words and fails, while the
byte-array input succeeds. -/
theorem claim2_counterexample :
    BytesLike.length zeroWordHexInput = 66 ∧
    (arrayify zeroWordHexInput).length = 32 ∧
    arrayify zeroWordHexInput = List.replicate 32 0 ∧
    guessAbiEncodedData probeLengthMatches dvZeroWord utf8No 5 zeroWordHexInput = none ∧
    guessAbiEncodedData probeLengthMatches dvZeroWord utf8No 5
      (BytesLike.bytes (List.replicate 32 0)) = some [ParamTy.uint256] ∧
    decodeAux probeLengthMatches 5 (arrayify zeroWordHexInput) 0 []
      (BytesLike.length zeroWordHexInput) none none = none ∧
    decodeAux probeLengthMatches 5 (arrayify zeroWordHexInput) 0 []
      (arrayify zeroWordHexInput).length none none = some [ParamTy.bytesN 32] :=
  ⟨rfl, rfl, rfl, rfl, rfl, rfl, rfl⟩

/-- Claim C2 amended: the initial `end_of_static` bound is the input's
`.length` property; this equals the byte length of the data the decoder
reads exactly when the input is given as a byte array, while for a
hex-string input it is the character count of the string. -/
theorem claim2_amended_initial_bound (bs : List Nat) (s : String) :
    BytesLike.length (BytesLike.bytes bs) = (arrayify (BytesLike.bytes bs)).length ∧
    BytesLike.length (BytesLike.hexString s) = s.length :=
  ⟨rfl, rfl⟩

/-- Claim C8: for empty calldata `guess_fragment` returns nothing; for
non-empty calldata it returns nothing exactly when
`guess_abi_encoded_data` on the calldata past the first 4 bytes returns
nothing, and otherwise a fragment whose name is `guessed_` followed by
the lowercase hex of the first (up to) 4 bytes and whose parameter list
is exactly the guessed one. -/
theorem claim8_selector_preservation (probe : List ParamTy → List Nat → Bool)
    (decodeVals : List ParamTy → List Nat → List Value) (utf8Ok : List Nat → Bool)
    (fuel : Nat) (c : BytesLike) :
    (arrayify c = [] → guessFragment probe decodeVals utf8Ok fuel c = none) ∧
    (arrayify c ≠ [] →
      ((guessFragment probe decodeVals utf8Ok fuel c = none ↔
          guessAbiEncodedData probe decodeVals utf8Ok fuel
            (BytesLike.bytes ((arrayify c).drop 4)) = none) ∧
        ∀ params,
          guessAbiEncodedData probe decodeVals utf8Ok fuel
            (BytesLike.bytes ((arrayify c).drop 4)) = some params →
          guessFragment probe decodeVals utf8Ok fuel c =
            some { name := "guessed_" ++ bytesToHex ((arrayify c).take 4),
                   inputs := params })) := by
  constructor
  · intro he
    simp [guessFragment, he]
  · intro hne
    have hlen : ¬ (arrayify c).length = 0 := fun h => hne (List.length_eq_zero.mp h)
    constructor
    · simp only [guessFragment, if_neg hlen]
      cases hg : guessAbiEncodedData probe decodeVals utf8Ok fuel
          (BytesLike.bytes ((arrayify c).drop 4)) with
      | none => simp [hg]
      | some params => simp [hg]
    · intro params hp
      simp only [guessFragment, if_neg hlen, hp]

/-- Claim C8 witness: concrete calldata with selector `0x01020304`
followed by one zero word yields `guessed_01020304(uint256)`. -/
theorem claim8_witness :
    guessFragment probeLengthMatches dvZeroWord utf8No 3 (BytesLike.bytes selectorCalldata) =
      some { name := "guessed_" ++
               bytesToHex ((arrayify (BytesLike.bytes selectorCalldata)).take 4),
             inputs := [ParamTy.uint256] } :=
  ((claim8_selector_preservation probeLengthMatches dvZeroWord utf8No 3
      (BytesLike.bytes selectorCalldata)).2 (by decide)).2 [ParamTy.uint256] rfl

end AbiGuesser
